import Mathlib

/-!
Verification of the finance-tracker categorization engine (`main.py`).

The Python source is shallowly embedded: pandas dataframes become lists of
records, the `st.session_state.categories` dict becomes an insertion-ordered
association list, and Python string operations (`lower`, `strip`, substring
`in`) are modelled over `List Char`.
-/

set_option autoImplicit false

namespace FinanceTracker

/-! ## Python string primitives -/

/-- Python `str.lower()`, modelled per character over the string's data. -/
def pyLower (s : String) : List Char :=
  s.data.map Char.toLower

/-- The whitespace characters stripped by Python `str.strip()`. -/
def pyIsSpace (c : Char) : Bool :=
  c == ' ' || c == '\t' || c == '\n' || c == '\r' || c == '\x0b' || c == '\x0c'

/-- Python `str.strip()` over a character list: drop whitespace at both ends. -/
def pyStrip (l : List Char) : List Char :=
  ((l.dropWhile pyIsSpace).reverse.dropWhile pyIsSpace).reverse

/-- Python `str.strip()` returning a `String` (used by `add_keyword_to_category`). -/
def pyStripStr (s : String) : String :=
  ⟨pyStrip s.data⟩

/-- Python substring test `pat in s` on character lists. -/
def occursIn (pat : List Char) : List Char → Bool
  | [] => pat.isEmpty
  | c :: t => pat.isPrefixOf (c :: t) || occursIn pat t

theorem occursIn_nil_pat (s : List Char) : occursIn [] s = true := by
  induction s with
  | nil => rfl
  | cons c t ih => simp [occursIn, ih]

/-! ## Data model -/

/-- A calendar date as parsed by `pd.to_datetime(..., format="%d %b %Y")`. -/
structure SimpleDate where
  year : Nat
  month : Nat
  day : Nat
deriving DecidableEq

/-- Chronological key: fields are in range after parsing, so lexicographic
year/month/day order coincides with order on this number. -/
def SimpleDate.key (d : SimpleDate) : Nat :=
  d.year * 10000 + d.month * 100 + d.day

/-- A normalized transaction row of the dataframe handed to
`categorize_transactions` and `main` (columns `Date`, `Details`, `Amount`,
`Debit/Credit`, `Category`). Amounts are the exact decimal values parsed
from the CSV text. -/
structure Transaction where
  date : SimpleDate
  details : String
  amount : ℚ
  direction : String
  category : String
deriving DecidableEq

/-- `st.session_state.categories`: a Python dict mapping category name to its
keyword list, embedded as an insertion-ordered association list. -/
abbrev Ruleset := List (String × List String)

/-! ## Categorizer (`categorize_transactions`, main.py lines 24-39) -/

/-- One row's test inside the category loop: `details.lower().strip()`
contains any of the category's lowered, stripped keywords. -/
def rowMatches (keywords : List String) (details : String) : Bool :=
  (keywords.map (fun k => pyStrip (pyLower k))).any
    (fun kw => occursIn kw (pyStrip (pyLower details)))

/-- One iteration of the outer loop of `categorize_transactions`: skip
`"Uncategorized"` and empty keyword lists, otherwise stamp the category onto
every matching row. -/
def applyCategory (category : String) (keywords : List String)
    (df : List Transaction) : List Transaction :=
  if category = "Uncategorized" ∨ keywords = [] then df
  else df.map (fun t =>
    if rowMatches keywords t.details then { t with category := category } else t)

/-- `categorize_transactions(df)`: reset every row to `"Uncategorized"`, then
fold the category loop over the ruleset in insertion order. -/
def categorize_transactions (cats : Ruleset) (df : List Transaction) :
    List Transaction :=
  cats.foldl (fun acc p => applyCategory p.1 p.2 acc)
    (df.map (fun t => { t with category := "Uncategorized" }))

/-! ## Spec-side description of the categorizer

`specCatMatches` and `lastMatchCategory` follow the wording of the spec
(section 4.2): a category matches a transaction when it is not
`"Uncategorized"`, its keyword list is non-empty and some lowered, trimmed
keyword occurs in the lowered, trimmed details; the assigned category is the
last matching one in ruleset iteration order, defaulting to
`"Uncategorized"`. -/

/-- Spec wording: category `p` matches details `d`. -/
def specCatMatches (p : String × List String) (d : String) : Bool :=
  (!(p.1 == "Uncategorized")) && (!p.2.isEmpty) && rowMatches p.2 d

/-- Spec wording: the last matching category in iteration order, or
`"Uncategorized"` when none matches. -/
def lastMatchCategory (cats : Ruleset) (d : String) : String :=
  match (cats.filter (fun p => specCatMatches p d)).getLast? with
  | some p => p.1
  | none => "Uncategorized"

/-- Code-side single-row residue of the category fold. -/
def assignedCategory (cats : Ruleset) (d : String) : String :=
  cats.foldl (fun c p => if specCatMatches p d then p.1 else c) "Uncategorized"

/-- Per-row form of one outer-loop iteration. -/
def applyCat1 (p : String × List String) (t : Transaction) : Transaction :=
  if specCatMatches p t.details then { t with category := p.1 } else t

theorem applyCategory_eq_map (c : String) (kws : List String)
    (df : List Transaction) :
    applyCategory c kws df = df.map (applyCat1 (c, kws)) := by
  unfold applyCategory
  by_cases h : c = "Uncategorized" ∨ kws = []
  · rw [if_pos h]
    have hfalse : ∀ t : Transaction, specCatMatches (c, kws) t.details = false := by
      intro t
      rcases h with h | h
      · simp [specCatMatches, h]
      · simp [specCatMatches, h]
    have hmap : df.map (applyCat1 (c, kws)) = df.map id := by
      apply List.map_congr_left
      intro t _
      simp [applyCat1, hfalse t]
    rw [hmap, List.map_id]
  · rw [if_neg h]
    push_neg at h
    apply List.map_congr_left
    intro t _
    have hm : specCatMatches (c, kws) t.details = rowMatches kws t.details := by
      simp [specCatMatches, h.1, List.isEmpty_iff, h.2]
    rw [applyCat1, hm]

theorem foldl_map_comm {α β : Type} (g : α → β → β) (cats : List α)
    (l : List β) :
    cats.foldl (fun acc p => acc.map (g p)) l
      = l.map (fun x => cats.foldl (fun x p => g p x) x) := by
  induction cats generalizing l with
  | nil => simp
  | cons p ps ih =>
    rw [List.foldl_cons, ih, List.map_map]
    rfl

theorem applyCat1_details (p : String × List String) (t : Transaction) :
    (applyCat1 p t).details = t.details := by
  unfold applyCat1
  by_cases h : specCatMatches p t.details = true
  · rw [if_pos h]
  · rw [if_neg h]

theorem foldl_applyCat1 (cats : Ruleset) (t : Transaction) :
    cats.foldl (fun x p => applyCat1 p x) t
      = { t with category :=
            (cats.foldl (fun c p => if specCatMatches p t.details then p.1 else c)
              t.category) } := by
  induction cats generalizing t with
  | nil => rfl
  | cons p ps ih =>
    rw [List.foldl_cons, List.foldl_cons, ih (applyCat1 p t)]
    unfold applyCat1
    by_cases h : specCatMatches p t.details = true
    · rw [if_pos h]
      simp only [h, if_pos]
    · rw [if_neg h]
      simp only [h]
      rfl

theorem foldl_last_filter (m : String × List String → Bool) (cats : Ruleset)
    (d : String) :
    cats.foldl (fun c p => if m p then p.1 else c) d
      = (match (cats.filter m).getLast? with
          | some p => p.1
          | none => d) := by
  induction cats generalizing d with
  | nil => rfl
  | cons p ps ih =>
    rw [List.foldl_cons]
    by_cases h : m p = true
    · rw [if_pos h, ih p.1, List.filter_cons_of_pos h]
      cases hf : (ps.filter m).getLast? with
      | some q =>
        cases hps : ps.filter m with
        | nil => rw [hps] at hf; simp at hf
        | cons a l =>
          rw [hps] at hf
          rw [List.getLast?_cons_cons, hf]
      | none =>
        have : ps.filter m = [] := by
          cases hps : ps.filter m with
          | nil => rfl
          | cons a l => rw [hps] at hf; simp [List.getLast?] at hf
        rw [this]
        rfl
    · rw [if_neg h, ih d, List.filter_cons_of_neg h]

/-- The categorizer is the per-row map assigning `assignedCategory`. -/
theorem categorize_eq_map (cats : Ruleset) (df : List Transaction) :
    categorize_transactions cats df
      = df.map (fun t => { t with category := assignedCategory cats t.details }) := by
  unfold categorize_transactions
  have h1 : ∀ acc : List Transaction,
      cats.foldl (fun acc p => applyCategory p.1 p.2 acc) acc
        = cats.foldl (fun acc p => acc.map (applyCat1 p)) acc := by
    intro acc
    apply List.foldl_ext
    intro b p _
    rw [applyCategory_eq_map]
  rw [h1, foldl_map_comm, List.map_map]
  apply List.map_congr_left
  intro t _
  simp only [Function.comp_apply]
  rw [foldl_applyCat1]
  rfl

/-- `assignedCategory` is exactly the spec's last-match rule. -/
theorem assignedCategory_eq_lastMatch (cats : Ruleset) (d : String) :
    assignedCategory cats d = lastMatchCategory cats d := by
  unfold assignedCategory lastMatchCategory
  exact foldl_last_filter (fun p => specCatMatches p d) cats "Uncategorized"

theorem specCatMatches_iff (p : String × List String) (d : String) :
    specCatMatches p d = true
      ↔ (¬ p.1 = "Uncategorized" ∧ ¬ p.2 = [] ∧ rowMatches p.2 d = true) := by
  simp [specCatMatches, List.isEmpty_iff, and_assoc]

theorem rowMatches_iff (kws : List String) (d : String) :
    rowMatches kws d = true
      ↔ ∃ k ∈ kws,
          occursIn (pyStrip (pyLower k)) (pyStrip (pyLower d)) = true := by
  simp [rowMatches]

/-- Characterization of the category the fold assigns: non-default exactly
when some category matches, and whatever is assigned does match. -/
theorem assignedCategory_spec (cats : Ruleset) (d : String) :
    (¬ assignedCategory cats d = "Uncategorized"
      ↔ ∃ p ∈ cats, specCatMatches p d = true)
    ∧ (¬ assignedCategory cats d = "Uncategorized" →
        ∃ kws, (assignedCategory cats d, kws) ∈ cats ∧ ¬ kws = []
          ∧ rowMatches kws d = true) := by
  rw [assignedCategory_eq_lastMatch]
  unfold lastMatchCategory
  cases hf : (cats.filter (fun p => specCatMatches p d)).getLast? with
  | none =>
    rw [List.getLast?_eq_none_iff] at hf
    constructor
    · constructor
      · intro h; exact absurd rfl h
      · rintro ⟨p, hp, hm⟩
        have : p ∈ cats.filter (fun p => specCatMatches p d) :=
          List.mem_filter.mpr ⟨hp, hm⟩
        rw [hf] at this
        exact absurd this (List.not_mem_nil p)
    · intro h; exact absurd rfl h
  | some p =>
    have hpmem : p ∈ cats.filter (fun p => specCatMatches p d) := by
      rcases List.getLast?_eq_some_iff.mp hf with ⟨ys, hys⟩
      rw [hys]
      exact List.mem_append.mpr (Or.inr (List.mem_singleton.mpr rfl))
    have hcats : p ∈ cats := (List.mem_filter.mp hpmem).1
    have hm : specCatMatches p d = true := by
      have := (List.mem_filter.mp hpmem).2
      simpa using this
    rcases (specCatMatches_iff p d).mp hm with ⟨hne, hke, hrm⟩
    constructor
    · constructor
      · intro _; exact ⟨p, hcats, hm⟩
      · intro _; exact hne
    · intro _
      exact ⟨p.2, by simpa using hcats, hke, hrm⟩

/-- C1: the categorizer assigns the **last** matching category in ruleset
iteration (insertion) order — later categories override earlier matches. -/
theorem categorize_last_match_wins (cats : Ruleset) (df : List Transaction) :
    categorize_transactions cats df
      = df.map (fun t =>
          { t with category := lastMatchCategory cats t.details }) := by
  rw [categorize_eq_map]
  apply List.map_congr_left
  intro t _
  rw [assignedCategory_eq_lastMatch]

/-- C2: categorization is idempotent — re-running the categorizer on its own
output with the same ruleset yields the same assignments. -/
theorem categorize_idempotent (cats : Ruleset) (df : List Transaction) :
    categorize_transactions cats (categorize_transactions cats df)
      = categorize_transactions cats df := by
  simp only [categorize_eq_map, List.map_map]
  apply List.map_congr_left
  intro t _
  rfl

/-- C3: a transaction gets a non-default category iff some category other
than `"Uncategorized"` with a non-empty keyword list has a lowered, trimmed
keyword occurring in the lowered, trimmed details; the assigned category
itself has such a keyword (so empty-keyword categories never receive a
transaction); and keyword `"uber"` matches details `"UBER EATS DUBAI"`. -/
theorem categorize_match_characterization (cats : Ruleset)
    (df : List Transaction) (t : Transaction)
    (ht : t ∈ categorize_transactions cats df) :
    (¬ t.category = "Uncategorized"
      ↔ ∃ p ∈ cats, ¬ p.1 = "Uncategorized" ∧ ¬ p.2 = []
          ∧ ∃ k ∈ p.2,
              occursIn (pyStrip (pyLower k)) (pyStrip (pyLower t.details)) = true)
    ∧ (¬ t.category = "Uncategorized" →
        ∃ kws, (t.category, kws) ∈ cats ∧ ¬ kws = []
          ∧ ∃ k ∈ kws,
              occursIn (pyStrip (pyLower k)) (pyStrip (pyLower t.details)) = true)
    ∧ rowMatches ["uber"] "UBER EATS DUBAI" = true := by
  rw [categorize_eq_map] at ht
  rcases List.mem_map.mp ht with ⟨s, _, hs⟩
  have hdet : t.details = s.details := by rw [← hs]
  have hcat : t.category = assignedCategory cats s.details := by rw [← hs]
  have hspec := assignedCategory_spec cats s.details
  refine ⟨?_, ?_, by decide⟩
  · rw [hcat, hdet]
    rw [hspec.1]
    constructor
    · rintro ⟨p, hp, hm⟩
      rcases (specCatMatches_iff p s.details).mp hm with ⟨h1, h2, h3⟩
      exact ⟨p, hp, h1, h2, (rowMatches_iff p.2 s.details).mp h3⟩
    · rintro ⟨p, hp, h1, h2, h3⟩
      exact ⟨p, hp, (specCatMatches_iff p s.details).mpr
        ⟨h1, h2, (rowMatches_iff p.2 s.details).mpr h3⟩⟩
  · rw [hcat, hdet]
    intro h
    rcases hspec.2 h with ⟨kws, hmem, hke, hrm⟩
    exact ⟨kws, hmem, hke, (rowMatches_iff kws s.details).mp hrm⟩

/-- Transaction of the spec's sample scenario, used to instantiate
hypothesised theorems at concrete inputs. -/
def sampleTx : Transaction :=
  { date := ⟨2025, 1, 1⟩
    details := "Starbucks Downtown"
    amount := (10 : ℚ)
    direction := "Debit"
    category := "Uncategorized" }

/-- Concrete instantiation of `categorize_match_characterization`. -/
theorem categorize_match_characterization_witness :
    (¬ ({ sampleTx with category := "Food" } : Transaction).category
          = "Uncategorized"
      ↔ ∃ p ∈ ([("Food", ["starbucks"])] : Ruleset),
          ¬ p.1 = "Uncategorized" ∧ ¬ p.2 = []
          ∧ ∃ k ∈ p.2,
              occursIn (pyStrip (pyLower k))
                (pyStrip (pyLower ({ sampleTx with category := "Food" }
                  : Transaction).details)) = true)
    ∧ (¬ ({ sampleTx with category := "Food" } : Transaction).category
          = "Uncategorized" →
        ∃ kws, (({ sampleTx with category := "Food" }
            : Transaction).category, kws) ∈ ([("Food", ["starbucks"])] : Ruleset)
          ∧ ¬ kws = []
          ∧ ∃ k ∈ kws,
              occursIn (pyStrip (pyLower k))
                (pyStrip (pyLower ({ sampleTx with category := "Food" }
                  : Transaction).details)) = true)
    ∧ rowMatches ["uber"] "UBER EATS DUBAI" = true :=
  categorize_match_characterization [("Food", ["starbucks"])] [sampleTx]
    { sampleTx with category := "Food" } (by decide)

/-- C10: once some category other than `"Uncategorized"` has a non-empty
keyword list containing a keyword that lower-cases and trims to the empty
string, every transaction is assigned a category — none stays
`"Uncategorized"`. -/
theorem whitespace_keyword_catches_all (cats : Ruleset)
    (df : List Transaction) (t : Transaction)
    (hp : ∃ p ∈ cats, ¬ p.1 = "Uncategorized" ∧ ¬ p.2 = []
        ∧ ∃ k ∈ p.2, pyStrip (pyLower k) = [])
    (ht : t ∈ categorize_transactions cats df) :
    ¬ t.category = "Uncategorized" := by
  rw [categorize_eq_map] at ht
  rcases List.mem_map.mp ht with ⟨s, _, hs⟩
  have hcat : t.category = assignedCategory cats s.details := by rw [← hs]
  rw [hcat]
  apply (assignedCategory_spec cats s.details).1.mpr
  rcases hp with ⟨p, hpc, h1, h2, k, hk, hke⟩
  refine ⟨p, hpc, (specCatMatches_iff p s.details).mpr ⟨h1, h2, ?_⟩⟩
  apply (rowMatches_iff p.2 s.details).mpr
  exact ⟨k, hk, by rw [hke]; exact occursIn_nil_pat _⟩

/-- Concrete instantiation of `whitespace_keyword_catches_all`. -/
theorem whitespace_keyword_catches_all_witness :
    ¬ ({ sampleTx with category := "Misc" } : Transaction).category
        = "Uncategorized" :=
  whitespace_keyword_catches_all [("Misc", [" "])] [sampleTx]
    { sampleTx with category := "Misc" } (by decide) (by decide)

/-! ## Feedback applier (`add_keyword_to_category`, main.py lines 61-68)

The Python function mutates `st.session_state.categories[category]` and calls
`save_categories()` when it appends. The embedding passes the ruleset
explicitly and records in `LearnOutcome` the new ruleset, whether
`save_categories` ran, and the returned boolean. Accessing a missing dict
key raises `KeyError(category)` before anything is touched, embedded as
`Except.error category` with no outcome state produced. -/

/-- Python dict read `categories[category]`: first (unique) matching key. -/
def lookupCat (cats : Ruleset) (c : String) : Option (List String) :=
  match cats with
  | [] => none
  | p :: ps => if p.1 = c then some p.2 else lookupCat ps c

/-- In-place mutation of one dict entry, preserving insertion order. -/
def updateCat (cats : Ruleset) (c : String) (kws : List String) : Ruleset :=
  cats.map (fun p => if p.1 = c then (p.1, kws) else p)

/-- Result of a successful `add_keyword_to_category` call. -/
structure LearnOutcome where
  categories : Ruleset
  saved : Bool
  returned : Bool
deriving DecidableEq

/-- `add_keyword_to_category(category, keyword)`: strip the keyword; if it is
non-empty (truthy) and not already in the category's list, append it, persist,
and return `True`; otherwise return `False`. The test
`if keyword and keyword not in st.session_state.categories[category]`
short-circuits: a keyword that strips to empty returns `False` without ever
evaluating the dict access, so only a non-empty stripped keyword can raise
`KeyError` on a missing category. -/
def add_keyword_to_category (cats : Ruleset) (category keyword : String) :
    Except String LearnOutcome :=
  let kw := pyStripStr keyword
  if kw = "" then .ok ⟨cats, false, false⟩
  else
    match lookupCat cats category with
    | none => .error category
    | some kws =>
      if ¬ kw ∈ kws then
        .ok ⟨updateCat cats category (kws ++ [kw]), true, true⟩
      else
        .ok ⟨cats, false, false⟩

theorem lookupCat_updateCat (cats : Ruleset) (c : String)
    (kws newKws : List String) (h : lookupCat cats c = some kws) :
    lookupCat (updateCat cats c newKws) c = some newKws := by
  induction cats with
  | nil => simp [lookupCat] at h
  | cons p ps ih =>
    by_cases hc : p.1 = c
    · simp [updateCat, lookupCat, hc]
    · rw [lookupCat, if_neg hc] at h
      simp only [updateCat, List.map_cons, if_neg hc]
      rw [lookupCat, if_neg hc]
      exact ih h

/-- Counterexample to case-insensitive duplicate detection: `"Food"` already
stores `"Uber "`, which equals `"uber"` up to case and surrounding
whitespace, yet learning `"uber"` appends it anyway — the stored list is
compared case-sensitively and is itself never trimmed. -/
theorem learn_duplicate_check_is_case_sensitive_cex :
    pyStrip (pyLower "Uber ") = pyStrip (pyLower "uber")
    ∧ add_keyword_to_category [("Food", ["Uber "])] "Food" "uber"
        = .ok ⟨[("Food", ["Uber ", "uber"])], true, true⟩ :=
  ⟨rfl, rfl⟩

/-- C4 (amended): duplicate detection trims the incoming keyword only and
compares it by case-sensitive exact equality with the stored keywords: if the
stored list already contains exactly the trimmed keyword, learning it leaves
the list unchanged, saves nothing and returns `False`. -/
theorem learn_exact_duplicate_not_readded (cats : Ruleset)
    (category keyword : String) (kws : List String)
    (hlook : lookupCat cats category = some kws)
    (hmem : pyStripStr keyword ∈ kws) :
    add_keyword_to_category cats category keyword = .ok ⟨cats, false, false⟩ := by
  by_cases hk : pyStripStr keyword = ""
  · simp only [add_keyword_to_category, if_pos hk]
  · simp only [add_keyword_to_category, if_neg hk, hlook]
    rw [if_neg (not_not_intro hmem)]

/-- Concrete instantiation of `learn_exact_duplicate_not_readded`. -/
theorem learn_exact_duplicate_not_readded_witness :
    add_keyword_to_category [("Food", ["uber"])] "Food" " uber "
      = .ok ⟨[("Food", ["uber"])], false, false⟩ :=
  learn_exact_duplicate_not_readded [("Food", ["uber"])] "Food" " uber "
    ["uber"] (by decide) (by decide)

/-- C6: for an existing category, `add_keyword_to_category` appends the
trimmed keyword and persists iff the trimmed keyword is non-empty and not
already stored, returns `True` exactly when it mutated, and is idempotent:
an immediately repeated call changes nothing and returns `False`. -/
theorem learn_contract (cats : Ruleset) (category keyword : String)
    (kws : List String) (hlook : lookupCat cats category = some kws) :
    ∃ r : LearnOutcome,
      add_keyword_to_category cats category keyword = .ok r
      ∧ (r.returned = true ↔ (¬ pyStripStr keyword = "" ∧ ¬ pyStripStr keyword ∈ kws))
      ∧ r.saved = r.returned
      ∧ (r.returned = true →
          r.categories = updateCat cats category (kws ++ [pyStripStr keyword]))
      ∧ (r.returned = false → r.categories = cats)
      ∧ add_keyword_to_category r.categories category keyword
          = .ok ⟨r.categories, false, false⟩ := by
  by_cases hk : pyStripStr keyword = ""
  · refine ⟨⟨cats, false, false⟩, ?_, ?_, rfl, fun h => by simp at h,
      fun _ => rfl, ?_⟩
    · simp only [add_keyword_to_category, if_pos hk]
    · exact iff_of_false (by simp) (fun hcontra => hcontra.1 hk)
    · simp only [add_keyword_to_category, if_pos hk]
  · by_cases hmem : pyStripStr keyword ∈ kws
    · refine ⟨⟨cats, false, false⟩, ?_, ?_, rfl, fun h => by simp at h,
        fun _ => rfl, ?_⟩
      · simp only [add_keyword_to_category, if_neg hk, hlook]
        rw [if_neg (not_not_intro hmem)]
      · exact iff_of_false (by simp) (fun hcontra => hcontra.2 hmem)
      · simp only [add_keyword_to_category, if_neg hk, hlook]
        rw [if_neg (not_not_intro hmem)]
    · refine ⟨⟨updateCat cats category (kws ++ [pyStripStr keyword]), true, true⟩,
        ?_, ?_, rfl, fun _ => rfl, fun h => by simp at h, ?_⟩
      · simp only [add_keyword_to_category, if_neg hk, hlook]
        rw [if_pos hmem]
      · exact iff_of_true rfl ⟨hk, hmem⟩
      · simp only [add_keyword_to_category, if_neg hk,
          lookupCat_updateCat cats category kws _ hlook]
        rw [if_neg]
        intro hcontra
        exact hcontra (List.mem_append.mpr (Or.inr (List.mem_singleton.mpr rfl)))

/-- Concrete instantiation of `learn_contract`. -/
theorem learn_contract_witness :
    ∃ r : LearnOutcome,
      add_keyword_to_category [("Food", [])] "Food" "uber" = .ok r
      ∧ (r.returned = true
          ↔ (¬ pyStripStr "uber" = "" ∧ ¬ pyStripStr "uber" ∈ ([] : List String)))
      ∧ r.saved = r.returned
      ∧ (r.returned = true →
          r.categories = updateCat [("Food", [])] "Food" ([] ++ [pyStripStr "uber"]))
      ∧ (r.returned = false → r.categories = [("Food", [])])
      ∧ add_keyword_to_category r.categories "Food" "uber"
          = .ok ⟨r.categories, false, false⟩ :=
  learn_contract [("Food", [])] "Food" "uber" [] (by decide)

/-- Counterexample to "calling learn with a missing category is an error for
every keyword": `"Food"` is not a ruleset key, yet the keyword `"   "` strips
to empty, so the short-circuiting conjunction returns `False` before the
dict access — no `KeyError`, no mutation. -/
theorem learn_unknown_category_empty_keyword_cex :
    lookupCat [("Uncategorized", [])] "Food" = none
    ∧ add_keyword_to_category [("Uncategorized", [])] "Food" "   "
        = .ok ⟨[("Uncategorized", [])], false, false⟩ :=
  ⟨rfl, rfl⟩

/-- C7 (amended): for a keyword whose trimmed form is non-empty, learning
into a category name that is not a ruleset key is an error carrying that
name (Python `KeyError`); no `LearnOutcome` is produced, so no ruleset state
is created, modified or persisted. A keyword trimming to empty
short-circuits and returns `False` with the ruleset untouched and no error,
even for a missing category. -/
theorem learn_unknown_category_error (cats : Ruleset) (category keyword : String)
    (h : lookupCat cats category = none) :
    (¬ pyStripStr keyword = "" →
      add_keyword_to_category cats category keyword = .error category
      ∧ ∀ r : LearnOutcome,
          ¬ add_keyword_to_category cats category keyword = .ok r)
    ∧ (pyStripStr keyword = "" →
      add_keyword_to_category cats category keyword
        = .ok ⟨cats, false, false⟩) := by
  constructor
  · intro hk
    have heq : add_keyword_to_category cats category keyword = .error category := by
      simp only [add_keyword_to_category, if_neg hk, h]
    exact ⟨heq, fun r hr => by rw [heq] at hr; exact Except.noConfusion hr⟩
  · intro hk
    simp only [add_keyword_to_category, if_pos hk]

/-- Concrete instantiation of `learn_unknown_category_error`. -/
theorem learn_unknown_category_error_witness :
    (¬ pyStripStr "uber" = "" →
      add_keyword_to_category [("Uncategorized", [])] "Food" "uber"
          = .error "Food"
      ∧ ∀ r : LearnOutcome,
          ¬ add_keyword_to_category [("Uncategorized", [])] "Food" "uber"
              = .ok r)
    ∧ (pyStripStr "uber" = "" →
      add_keyword_to_category [("Uncategorized", [])] "Food" "uber"
        = .ok ⟨[("Uncategorized", [])], false, false⟩) :=
  learn_unknown_category_error [("Uncategorized", [])] "Food" "uber" (by decide)

/-! ## Record normalizer (`load_transactions`, main.py lines 41-59)

A raw CSV table is a list of rows of column strings plus a flag for the
optional `Status` column. Line 47 fails in two distinct ways, both caught by
the `except` branch (which returns `None`, embedded as `Option.none`): when
`read_csv` has inferred a numeric dtype for the `Amount` column — which
happens exactly when the column is non-empty and every raw cell is a plain
numeric literal — the `.str` accessor itself raises `AttributeError`;
otherwise the column holds strings and `astype(float)` raises on any cell
that is not a numeric literal after comma removal. `parseFloat` models that
numeric-literal conversion (optional sign, decimal digits with an optional
point, optional scientific exponent); the special floating spellings
`inf`/`nan`, which the conversion accepts as IEEE values, have no rational
counterpart and are outside the embedding's value domain. `parseDate` models
`pd.to_datetime(..., format="%d %b %Y")` (month abbreviations matched
case-insensitively, calendar-valid day, four-digit year). After the column
conversions the code filters to `SETTLED` rows and categorizes. -/

/-- One raw CSV row (`Date, Details, Amount, Currency, Debit/Credit, Status`);
the `status` field is meaningful only when the table has a `Status` column. -/
structure RawRow where
  date : String
  details : String
  amount : String
  currency : String
  direction : String
  status : String
deriving DecidableEq

/-- A raw uploaded table. -/
structure RawTable where
  hasStatus : Bool
  rows : List RawRow
deriving DecidableEq

/-- A row after amount and date parsing, before the `Status` filter. -/
structure ParsedRow where
  date : SimpleDate
  details : String
  amount : ℚ
  direction : String
  status : String
deriving DecidableEq

/-- `str.replace(",", "")` on the `Amount` cell. -/
def stripCommas (s : String) : String :=
  ⟨s.data.filter (fun c => ¬ c = ',')⟩

def allDigits (l : List Char) : Bool :=
  l.all Char.isDigit

def digitsToNat (l : List Char) : Nat :=
  l.foldl (fun n c => 10 * n + (c.toNat - 48)) 0

/-- Decimal digits with an optional single point, as an exact rational. -/
def parseDecimal (l : List Char) : Option ℚ :=
  match l.splitOn '.' with
  | [ip] =>
    if ¬ ip = [] ∧ allDigits ip = true then some (digitsToNat ip : ℚ) else none
  | [ip, fp] =>
    if (¬ ip = [] ∨ ¬ fp = []) ∧ allDigits ip = true ∧ allDigits fp = true then
      some ((digitsToNat (ip ++ fp) : ℚ) / ((10 : ℚ) ^ fp.length))
    else none
  | _ => none

/-- Split a character list at every occurrence of `sep`. -/
def splitOnChar (sep : Char) : List Char → List (List Char)
  | [] => [[]]
  | c :: t =>
    if c = sep then [] :: splitOnChar sep t
    else
      match splitOnChar sep t with
      | [] => [[c]]
      | h :: r => (c :: h) :: r

/-- An optional leading sign; `true` means negative. -/
def signSplit : List Char → Bool × List Char
  | '-' :: t => (true, t)
  | '+' :: t => (false, t)
  | l => (false, l)

/-- A scientific-notation exponent: optional sign, then digits. -/
def parseExp (l : List Char) : Option ℤ :=
  match signSplit l with
  | (neg, t) =>
    if ¬ t = [] ∧ allDigits t = true then
      some (if neg then -(digitsToNat t : ℤ) else (digitsToNat t : ℤ))
    else none

/-- The string-to-float conversion applied to `Amount` cells: surrounding
whitespace, an optional sign, decimal digits with an optional point, and an
optional scientific exponent, as an exact rational. The special spellings
`inf`/`nan`, accepted by the conversion as non-finite floats, have no
rational counterpart and are outside the embedding's value domain. -/
def parseFloat (s : String) : Option ℚ :=
  match signSplit (pyStrip s.data) with
  | (neg, l) =>
    match splitOnChar 'e' (l.map Char.toLower) with
    | [m] => (parseDecimal m).map (fun q => if neg then -q else q)
    | [m, ex] =>
      match parseDecimal m, parseExp ex with
      | some q, some z =>
        some (if neg then -(q * (10 : ℚ) ^ z) else q * (10 : ℚ) ^ z)
      | _, _ => none
    | _ => none

def monthAbbrevs : List String :=
  ["Jan", "Feb", "Mar", "Apr", "May", "Jun",
   "Jul", "Aug", "Sep", "Oct", "Nov", "Dec"]

def isLeapYear (y : Nat) : Bool :=
  decide ((y % 4 = 0 ∧ ¬ y % 100 = 0) ∨ y % 400 = 0)

def daysInMonth (y m : Nat) : Nat :=
  if m = 2 then (if isLeapYear y then 29 else 28)
  else if m = 4 ∨ m = 6 ∨ m = 9 ∨ m = 11 then 30
  else 31

/-- `"%d %b %Y"`: day, English month abbreviation, four-digit year,
space-separated; the day must exist in the given calendar month. -/
def parseDate (s : String) : Option SimpleDate :=
  match splitOnChar ' ' s.data with
  | [d, m, y] =>
    match monthAbbrevs.findIdx? (fun a => pyLower a = m.map Char.toLower) with
    | some i =>
      if ¬ d = [] ∧ d.length ≤ 2 ∧ allDigits d = true
          ∧ 1 ≤ digitsToNat d
          ∧ digitsToNat d ≤ daysInMonth (digitsToNat y) (i + 1)
          ∧ y.length = 4 ∧ allDigits y = true then
        some ⟨digitsToNat y, i + 1, digitsToNat d⟩
      else none
    | none => none
  | _ => none

/-- Parse one row's `Amount` and `Date` cells. -/
def parseRow (r : RawRow) : Option ParsedRow :=
  match parseFloat (stripCommas r.amount), parseDate r.date with
  | some a, some d => some ⟨d, r.details, a, r.direction, r.status⟩
  | _, _ => none

/-- Column-wise parsing of the whole upload: any malformed cell fails the
whole table, mirroring the `try/except` around the column conversions. -/
def parseAll : List RawRow → Option (List ParsedRow)
  | [] => some []
  | r :: rs =>
    match parseRow r, parseAll rs with
    | some p, some ps => some (p :: ps)
    | _, _ => none

/-- Lines 53-54: keep only `Status == "SETTLED"` rows when the column
exists. -/
def keptRows (hasStatus : Bool) (rows : List ParsedRow) : List ParsedRow :=
  if hasStatus then rows.filter (fun r => r.status = "SETTLED") else rows

/-- A parsed row as a dataframe row entering `categorize_transactions`. -/
def toTransaction (r : ParsedRow) : Transaction :=
  ⟨r.date, r.details, r.amount, r.direction, "Uncategorized"⟩

/-- `read_csv` dtype inference for the `Amount` column: a non-empty column
whose every raw cell (before comma removal) is a plain numeric literal is
read as a numeric dtype (`float64`/`int64`); line 47's `df["Amount"].str`
then raises `AttributeError`. A column with any non-numeric cell — e.g. a
comma-grouped amount — stays `object` (strings), and an empty table's
columns are `object` as well. -/
def amountColumnNumeric (rows : List RawRow) : Bool :=
  (!rows.isEmpty) && rows.all (fun r => (parseFloat r.amount).isSome)

/-- `load_transactions(file)`: column conversions, `Status` filter,
categorize; `none` is the `except` branch (`st.error` and `return None`),
reached either through the `.str`-on-numeric-dtype `AttributeError` or
through a cell that fails conversion. -/
def load_transactions (cats : Ruleset) (t : RawTable) :
    Option (List Transaction) :=
  if amountColumnNumeric t.rows = true then none
  else
    match parseAll t.rows with
    | none => none
    | some rows =>
      some (categorize_transactions cats
        ((keptRows t.hasStatus rows).map toTransaction))

theorem parseAll_eq_none (rows : List RawRow)
    (h : ∃ r ∈ rows, parseRow r = none) : parseAll rows = none := by
  induction rows with
  | nil => rcases h with ⟨r, hr, _⟩; exact absurd hr (List.not_mem_nil r)
  | cons r rs ih =>
    rcases h with ⟨q, hq, hqn⟩
    rcases List.mem_cons.mp hq with hq | hq
    · rw [parseAll, ← hq, hqn]
    · rw [parseAll, ih ⟨q, hq, hqn⟩]
      cases parseRow r <;> rfl

theorem parseAll_isSome (rows : List RawRow)
    (h : ∀ r ∈ rows, ¬ parseRow r = none) :
    ∃ ps, parseAll rows = some ps := by
  induction rows with
  | nil => exact ⟨[], rfl⟩
  | cons r rs ih =>
    rcases ih (fun q hq => h q (List.mem_cons.mpr (Or.inr hq))) with ⟨ps, hps⟩
    cases hr : parseRow r with
    | none => exact absurd hr (h r (List.mem_cons.mpr (Or.inl rfl)))
    | some p => exact ⟨p :: ps, by rw [parseAll, hr, hps]⟩

theorem parseAll_mem (rows : List RawRow) (ps : List ParsedRow)
    (h : parseAll rows = some ps) :
    ∀ p ∈ ps, ∃ r ∈ rows, parseRow r = some p := by
  induction rows generalizing ps with
  | nil =>
    rw [parseAll] at h
    cases h
    intro p hp
    exact absurd hp (List.not_mem_nil p)
  | cons r rs ih =>
    rw [parseAll] at h
    cases hr : parseRow r with
    | none => rw [hr] at h; exact absurd h (by simp)
    | some q =>
      rw [hr] at h
      cases hrs : parseAll rs with
      | none => rw [hrs] at h; exact absurd h (by simp)
      | some qs =>
        rw [hrs] at h
        cases h
        intro p hp
        rcases List.mem_cons.mp hp with hp | hp
        · exact ⟨r, List.mem_cons.mpr (Or.inl rfl), by rw [hr, hp]⟩
        · rcases ih qs hrs p hp with ⟨r2, hr2, hr2p⟩
          exact ⟨r2, List.mem_cons.mpr (Or.inr hr2), hr2p⟩

theorem parseRow_status (r : RawRow) (p : ParsedRow)
    (h : parseRow r = some p) : p.status = r.status := by
  unfold parseRow at h
  cases ha : parseFloat (stripCommas r.amount) with
  | none => rw [ha] at h; exact absurd h (by simp)
  | some a =>
    cases hd : parseDate r.date with
    | none => rw [ha, hd] at h; exact absurd h (by simp)
    | some d =>
      rw [ha, hd] at h
      cases h
      rfl

/-- C8: when the upload parses — its `Amount` column is not read as a
numeric dtype (so line 47's `.str` works) and every cell converts — the
retained rows are exactly those whose status equals `"SETTLED"` (exact,
case-sensitive) if a `Status` column is present, and all rows otherwise;
retained rows keep their input order (the kept list is a sublist of the
parsed list, and the output maps over it one-to-one). -/
theorem load_transactions_status_filter (cats : Ruleset) (table : RawTable)
    (rows : List ParsedRow)
    (hnum : amountColumnNumeric table.rows = false)
    (h : parseAll table.rows = some rows) :
    load_transactions cats table
      = some ((keptRows table.hasStatus rows).map (fun r =>
          { toTransaction r with category := assignedCategory cats r.details }))
    ∧ (keptRows table.hasStatus rows).Sublist rows
    ∧ (table.hasStatus = true →
        ∀ r ∈ rows, (r ∈ keptRows table.hasStatus rows ↔ r.status = "SETTLED"))
    ∧ (table.hasStatus = false → keptRows table.hasStatus rows = rows) := by
  refine ⟨?_, ?_, ?_, ?_⟩
  · simp only [load_transactions, hnum, Bool.false_eq_true, if_false, h]
    rw [categorize_eq_map, List.map_map]
    rfl
  · unfold keptRows
    cases table.hasStatus with
    | true => simp only [if_pos]; exact List.filter_sublist rows
    | false =>
      simp only [Bool.false_eq_true, if_neg, not_false_iff]
      exact List.Sublist.refl rows
  · intro hs r hr
    unfold keptRows
    rw [hs]
    simp only [if_pos]
    rw [List.mem_filter]
    constructor
    · intro hmem
      have := hmem.2
      simpa using this
    · intro hst
      exact ⟨hr, by simpa using hst⟩
  · intro hs
    unfold keptRows
    rw [hs]
    simp

/-- Sample raw rows used to instantiate the normalizer theorems. -/
def settledRaw : RawRow :=
  ⟨"01 Jan 2025", "Starbucks Downtown", "1,234", "AED", "Debit", "SETTLED"⟩

def reversedRaw : RawRow :=
  ⟨"02 Jan 2025", "Uber ride", "7", "AED", "Debit", "REVERSED"⟩

def settledParsed : ParsedRow :=
  ⟨⟨2025, 1, 1⟩, "Starbucks Downtown", (1234 : ℚ), "Debit", "SETTLED"⟩

def reversedParsed : ParsedRow :=
  ⟨⟨2025, 1, 2⟩, "Uber ride", (7 : ℚ), "Debit", "REVERSED"⟩

/-- Concrete instantiation of `load_transactions_status_filter`: a table with
a `Status` column whose `"REVERSED"` row is excluded entirely. -/
theorem load_transactions_status_filter_witness :
    load_transactions [] ⟨true, [settledRaw, reversedRaw]⟩
      = some ((keptRows true [settledParsed, reversedParsed]).map (fun r =>
          { toTransaction r with category := assignedCategory [] r.details }))
    ∧ (keptRows true [settledParsed, reversedParsed]).Sublist
        [settledParsed, reversedParsed]
    ∧ (true = true →
        ∀ r ∈ [settledParsed, reversedParsed],
          (r ∈ keptRows true [settledParsed, reversedParsed]
            ↔ r.status = "SETTLED"))
    ∧ (true = false → keptRows true [settledParsed, reversedParsed]
        = [settledParsed, reversedParsed]) :=
  load_transactions_status_filter [] ⟨true, [settledRaw, reversedRaw]⟩
    [settledParsed, reversedParsed] (by decide) (by decide)

/-- C9, evaluated at the failing input: the single `"REVERSED"` row with the
plain-numeric amount `"7"` is well formed and filtered out, so the claim
(and the normalizer contract the spec states, including its own worked
scenario with a lone amount `"10.50"`) promises the valid empty sequence —
but the all-numeric `Amount` column is read as a numeric dtype, line 47's
`df["Amount"].str` raises `AttributeError`, and the program returns `None`,
the error result. -/
theorem load_transactions_numeric_amount_dtype_bug :
    ¬ parseRow reversedRaw = none
    ∧ ¬ reversedRaw.status = "SETTLED"
    ∧ amountColumnNumeric [reversedRaw] = true
    ∧ load_transactions [] ⟨true, [reversedRaw]⟩ = none :=
  ⟨by decide, by decide, by decide, by decide⟩

/-! ## Aggregator (`main`, main.py lines 81-105 and 133)

`main` splits the categorized dataframe into `debits_df` and `credits_df`,
shows `credits_df["Amount"].sum()` as "Total Payments" and `len(debits_df)`
as "Transactions", builds `category_totals` by grouping debits by `Category`
and sorting by `Amount` descending, and `spending_over_time` by grouping
debits by `Date` (pandas emits date groups in ascending key order). Group
keys are modelled as the deduplicated key list; the sort algorithm is
modelled by `List.insertionSort`. The program's amounts are `float64` from
line 47's `astype(float)` and every sum below is a `float64` accumulation;
the embedding idealizes amounts as exact rationals and does not model
floating-point rounding, so the sum values proved here are those of the
idealized arithmetic, not evidence about the program's rounding
behaviour. -/

def debits_df (ts : List Transaction) : List Transaction :=
  ts.filter (fun t => t.direction = "Debit")

def credits_df (ts : List Transaction) : List Transaction :=
  ts.filter (fun t => t.direction = "Credit")

/-- `debits_df["Amount"].sum()`, the "Total Spending" metric (a `float64`
accumulation in the program, idealized here as a rational sum). -/
def total_spending (ts : List Transaction) : ℚ :=
  ((debits_df ts).map (fun t => t.amount)).sum

/-- `credits_df["Amount"].sum()`, the "Total Payments" metric (a `float64`
accumulation in the program, idealized here as a rational sum). -/
def total_payments (ts : List Transaction) : ℚ :=
  ((credits_df ts).map (fun t => t.amount)).sum

/-- `len(debits_df)`, the "Transactions" metric. -/
def transactions_metric (ts : List Transaction) : Nat :=
  (debits_df ts).length

/-- The grouped sum of `Amount` for one `Category` group (a `float64`
accumulation in the program, idealized here as a rational sum). -/
def sumForCategory (ts : List Transaction) (c : String) : ℚ :=
  ((ts.filter (fun t => t.category = c)).map (fun t => t.amount)).sum

/-- The grouped sum of `Amount` for one `Date` group (a `float64`
accumulation in the program, idealized here as a rational sum). -/
def sumForDate (ts : List Transaction) (d : SimpleDate) : ℚ :=
  ((ts.filter (fun t => t.date = d)).map (fun t => t.amount)).sum

/-- `category_totals` is sorted by `Amount` descending. -/
def byAmountDesc (a b : String × ℚ) : Prop := b.2 ≤ a.2

/-- `spending_over_time` comes out of `groupby("Date")` in ascending date
order. -/
def byDateAsc (a b : SimpleDate × ℚ) : Prop := a.1.key ≤ b.1.key

instance : DecidableRel byAmountDesc :=
  fun a b => inferInstanceAs (Decidable (b.2 ≤ a.2))

instance : DecidableRel byDateAsc :=
  fun a b => inferInstanceAs (Decidable (a.1.key ≤ b.1.key))

instance : IsTotal (String × ℚ) byAmountDesc :=
  ⟨fun a b => le_total b.2 a.2⟩

instance : IsTrans (String × ℚ) byAmountDesc :=
  ⟨fun _ _ _ h1 h2 => le_trans h2 h1⟩

instance : IsTotal (SimpleDate × ℚ) byDateAsc :=
  ⟨fun a b => le_total a.1.key b.1.key⟩

instance : IsTrans (SimpleDate × ℚ) byDateAsc :=
  ⟨fun _ _ _ h1 h2 => le_trans h1 h2⟩

/-- Lines 104-105: group debits by category, sum, sort descending by sum. -/
def category_totals (ts : List Transaction) : List (String × ℚ) :=
  List.insertionSort byAmountDesc
    ((((debits_df ts).map (fun t => t.category)).dedup).map
      (fun c => (c, sumForCategory (debits_df ts) c)))

/-- Line 133: group debits by date, sum (ascending date order). -/
def spending_over_time (ts : List Transaction) : List (SimpleDate × ℚ) :=
  List.insertionSort byDateAsc
    ((((debits_df ts).map (fun t => t.date)).dedup).map
      (fun d => (d, sumForDate (debits_df ts) d)))

/-- Counterexample to "a separate sum and count for Credit-direction
transactions": the "Transactions" metric is `len(debits_df)` — with one
debit and two credits it shows 1, not the number of credit transactions. -/
theorem aggregator_credit_count_cex :
    transactions_metric
        [⟨⟨2025, 1, 1⟩, "Starbucks", 10, "Debit", "Food"⟩,
         ⟨⟨2025, 1, 2⟩, "Salary", 100, "Credit", "Uncategorized"⟩,
         ⟨⟨2025, 1, 3⟩, "Refund", 5, "Credit", "Uncategorized"⟩] = 1
    ∧ (credits_df
        [⟨⟨2025, 1, 1⟩, "Starbucks", 10, "Debit", "Food"⟩,
         ⟨⟨2025, 1, 2⟩, "Salary", 100, "Credit", "Uncategorized"⟩,
         ⟨⟨2025, 1, 3⟩, "Refund", 5, "Credit", "Uncategorized"⟩]).length = 2 :=
  ⟨rfl, rfl⟩

/-- C5 (amended): the aggregator produces per-category sums of Debit
amounts sorted descending by sum, per-date sums of Debit amounts sorted
ascending by date, a sum of Credit-direction amounts, and a transaction
count taken over Debit-direction transactions; each emitted group value is
its group's sum and the group keys are exactly the distinct keys among the
debits, where all sums are the idealized rational sums standing in for the
program's `float64` accumulation (no statement is made about the original
claim's "exact decimal arithmetic", which the program does not use). -/
theorem aggregator_contract (ts : List Transaction) (p : String × ℚ)
    (q : SimpleDate × ℚ) (hp : p ∈ category_totals ts)
    (hq : q ∈ spending_over_time ts) :
    List.Sorted byAmountDesc (category_totals ts)
    ∧ List.Sorted byDateAsc (spending_over_time ts)
    ∧ p.2 = sumForCategory (debits_df ts) p.1
    ∧ q.2 = sumForDate (debits_df ts) q.1
    ∧ ((category_totals ts).map Prod.fst).Perm
        ((debits_df ts).map (fun t => t.category)).dedup
    ∧ ((spending_over_time ts).map Prod.fst).Perm
        ((debits_df ts).map (fun t => t.date)).dedup
    ∧ total_payments ts = ((ts.filter (fun t => t.direction = "Credit")).map
        (fun t => t.amount)).sum
    ∧ transactions_metric ts
        = (ts.filter (fun t => t.direction = "Debit")).length := by
  refine ⟨List.sorted_insertionSort byAmountDesc _,
    List.sorted_insertionSort byDateAsc _, ?_, ?_, ?_, ?_, rfl, rfl⟩
  · have hp2 := (List.perm_insertionSort byAmountDesc _).mem_iff.mp hp
    rcases List.mem_map.mp hp2 with ⟨c, _, hc⟩
    rw [← hc]
  · have hq2 := (List.perm_insertionSort byDateAsc _).mem_iff.mp hq
    rcases List.mem_map.mp hq2 with ⟨d, _, hd⟩
    rw [← hd]
  · have hperm := (List.perm_insertionSort byAmountDesc
      ((((debits_df ts).map (fun t => t.category)).dedup).map
        (fun c => (c, sumForCategory (debits_df ts) c)))).map Prod.fst
    unfold category_totals
    refine hperm.trans ?_
    rw [List.map_map]
    have : (Prod.fst ∘ fun c => (c, sumForCategory (debits_df ts) c))
        = fun c : String => c := rfl
    rw [this, List.map_id']
  · have hperm := (List.perm_insertionSort byDateAsc
      ((((debits_df ts).map (fun t => t.date)).dedup).map
        (fun d => (d, sumForDate (debits_df ts) d)))).map Prod.fst
    unfold spending_over_time
    refine hperm.trans ?_
    rw [List.map_map]
    have : (Prod.fst ∘ fun d => (d, sumForDate (debits_df ts) d))
        = fun d : SimpleDate => d := rfl
    rw [this, List.map_id']

/-- Concrete instantiation of `aggregator_contract` on a one-debit list. -/
theorem aggregator_contract_witness :
    List.Sorted byAmountDesc
      (category_totals [⟨⟨2025, 1, 1⟩, "Starbucks", 10, "Debit", "Food"⟩])
    ∧ List.Sorted byDateAsc
      (spending_over_time [⟨⟨2025, 1, 1⟩, "Starbucks", 10, "Debit", "Food"⟩])
    ∧ ("Food",
        sumForCategory
          (debits_df [⟨⟨2025, 1, 1⟩, "Starbucks", 10, "Debit", "Food"⟩])
          "Food").2
        = sumForCategory
            (debits_df [⟨⟨2025, 1, 1⟩, "Starbucks", 10, "Debit", "Food"⟩])
            ("Food",
              sumForCategory
                (debits_df [⟨⟨2025, 1, 1⟩, "Starbucks", 10, "Debit", "Food"⟩])
                "Food").1
    ∧ ((⟨2025, 1, 1⟩ : SimpleDate),
        sumForDate
          (debits_df [⟨⟨2025, 1, 1⟩, "Starbucks", 10, "Debit", "Food"⟩])
          ⟨2025, 1, 1⟩).2
        = sumForDate
            (debits_df [⟨⟨2025, 1, 1⟩, "Starbucks", 10, "Debit", "Food"⟩])
            ((⟨2025, 1, 1⟩ : SimpleDate),
              sumForDate
                (debits_df [⟨⟨2025, 1, 1⟩, "Starbucks", 10, "Debit", "Food"⟩])
                ⟨2025, 1, 1⟩).1
    ∧ ((category_totals
          [⟨⟨2025, 1, 1⟩, "Starbucks", 10, "Debit", "Food"⟩]).map Prod.fst).Perm
        ((debits_df [⟨⟨2025, 1, 1⟩, "Starbucks", 10, "Debit", "Food"⟩]).map
          (fun t => t.category)).dedup
    ∧ ((spending_over_time
          [⟨⟨2025, 1, 1⟩, "Starbucks", 10, "Debit", "Food"⟩]).map Prod.fst).Perm
        ((debits_df [⟨⟨2025, 1, 1⟩, "Starbucks", 10, "Debit", "Food"⟩]).map
          (fun t => t.date)).dedup
    ∧ total_payments [⟨⟨2025, 1, 1⟩, "Starbucks", 10, "Debit", "Food"⟩]
        = ((([⟨⟨2025, 1, 1⟩, "Starbucks", 10, "Debit", "Food"⟩]
            : List Transaction).filter (fun t => t.direction = "Credit")).map
              (fun t => t.amount)).sum
    ∧ transactions_metric [⟨⟨2025, 1, 1⟩, "Starbucks", 10, "Debit", "Food"⟩]
        = (([⟨⟨2025, 1, 1⟩, "Starbucks", 10, "Debit", "Food"⟩]
            : List Transaction).filter (fun t => t.direction = "Debit")).length :=
  aggregator_contract [⟨⟨2025, 1, 1⟩, "Starbucks", 10, "Debit", "Food"⟩]
    ("Food",
      sumForCategory
        (debits_df [⟨⟨2025, 1, 1⟩, "Starbucks", 10, "Debit", "Food"⟩]) "Food")
    ((⟨2025, 1, 1⟩ : SimpleDate),
      sumForDate
        (debits_df [⟨⟨2025, 1, 1⟩, "Starbucks", 10, "Debit", "Food"⟩])
        ⟨2025, 1, 1⟩)
    (List.mem_singleton.mpr rfl) (List.mem_singleton.mpr rfl)

end FinanceTracker
